import Mathlib

/-!
Verification of the `room` crate: a symbolic world-state engine.
Entities are described by recursive property expressions (`Object`),
queried through a structural matching algorithm, stored in a `Room`,
and mutated transactionally by `Room.action`.
-/

namespace room

/-- Verbs, from `src/verb.rs`. -/
inductive Verb where
  | Carry | Climb | Close | Give | Kill | LeanToward | Lock | Move
  | Open | PickUp | Play | PutDown | SleepIn | StandOn | Talk
  | WakeUpIn | WalkThrough | Unlock
deriving DecidableEq, Repr

/-- Adjectives, from `src/lib.rs`. -/
inductive Adjective where
  | Dead | Murderer | Open | Closed | Locked | Unlocked
deriving DecidableEq, Repr

mutual
/-- Property expressions, from `enum Object` in `src/lib.rs`. -/
inductive Object where
  | I : Object
  | You : Object
  | He : Object
  | She : Object
  | It : Object
  | That : Object
  | And : List Object → Object
  | Placement : Placement → Object
  | Role : Role → Object
  | Has : Object → Object
  | HasNot : Object → Object
  | Called : String → Object
  | OfType : String → Object
  | Adj : Adjective → Object
  | WasBy : Verb → Object → Object
  | DidTo : Verb → Object → Object
  | KeyTo : Object → Object

/-- Placements, from `enum Placement` in `src/lib.rs`. -/
inductive Placement where
  | On : Object → Placement
  | LeanToward : Object → Placement
  | In : Object → Placement
  | OutOf : Object → Placement

/-- Roles, from `enum Role` in `src/lib.rs`. -/
inductive Role where
  | OpponentOf : Object → Role
end

instance : Inhabited Object := ⟨Object.I⟩

mutual
/-- `Object::matches` from `src/lib.rs` lines 140-184: the Rust `match`
arms in source order (conjunction pattern first, conjunction subject
second, then same-kind recursive comparison, everything else false). -/
def Object.matches : Object → Object → Bool
  | a, Object.And objs => Object.matchesAll a objs
  | Object.And objs, b => Object.matchesAny objs b
  | Object.I, Object.I => true
  | Object.You, Object.You => true
  | Object.He, Object.He => true
  | Object.She, Object.She => true
  | Object.It, Object.It => true
  | Object.That, Object.That => true
  | Object.Placement a, Object.Placement b => Placement.matches a b
  | Object.Role a, Object.Role b => Role.matches a b
  | Object.Has a, Object.Has b => Object.matches a b
  | Object.HasNot a, Object.HasNot b => Object.matches a b
  | Object.Called a, Object.Called b => a == b
  | Object.OfType a, Object.OfType b => a == b
  | Object.Adj a, Object.Adj b => a == b
  | Object.WasBy va a, Object.WasBy vb b => va == vb && Object.matches a b
  | Object.DidTo va a, Object.DidTo vb b => va == vb && Object.matches a b
  | Object.KeyTo a, Object.KeyTo b => Object.matches a b
  | _, _ => false
termination_by a b => sizeOf a + sizeOf b

/-- The `objs.iter().all(|obj| self.matches(obj))` loop of `Object::matches`. -/
def Object.matchesAll : Object → List Object → Bool
  | _, [] => true
  | a, o :: rest => Object.matches a o && Object.matchesAll a rest
termination_by a l => sizeOf a + sizeOf l

/-- The `objs.iter().any(|obj| obj.matches(other))` loop of `Object::matches`. -/
def Object.matchesAny : List Object → Object → Bool
  | [], _ => false
  | o :: rest, b => Object.matches o b || Object.matchesAny rest b
termination_by l b => sizeOf l + sizeOf b

/-- `Placement::matches` from `src/lib.rs` lines 49-62. -/
def Placement.matches : Placement → Placement → Bool
  | Placement.On a, Placement.On b => Object.matches a b
  | Placement.LeanToward a, Placement.LeanToward b => Object.matches a b
  | Placement.In a, Placement.In b => Object.matches a b
  | Placement.OutOf a, Placement.OutOf b => Object.matches a b
  | _, _ => false
termination_by a b => sizeOf a + sizeOf b

/-- `Role::matches` from `src/lib.rs` lines 82-88. -/
def Role.matches : Role → Role → Bool
  | Role.OpponentOf a, Role.OpponentOf b => Object.matches a b
termination_by a b => sizeOf a + sizeOf b
end

/-- Whether an object is a `Conjunction` (the `And` variant). -/
def Object.isAnd : Object → Bool
  | Object.And _ => true
  | _ => false

/-- Variant kind discriminant of a property expression. -/
def Object.kind : Object → Nat
  | Object.I => 0
  | Object.You => 1
  | Object.He => 2
  | Object.She => 3
  | Object.It => 4
  | Object.That => 5
  | Object.And _ => 6
  | Object.Placement _ => 7
  | Object.Role _ => 8
  | Object.Has _ => 9
  | Object.HasNot _ => 10
  | Object.Called _ => 11
  | Object.OfType _ => 12
  | Object.Adj _ => 13
  | Object.WasBy _ _ => 14
  | Object.DidTo _ _ => 15
  | Object.KeyTo _ => 16

theorem matchesAll_eq_all (a : Object) (l : List Object) :
    Object.matchesAll a l = l.all (fun o => a.matches o) := by
  induction l with
  | nil => simp [Object.matchesAll]
  | cons o rest ih => simp [Object.matchesAll, ih]

theorem matchesAny_eq_any (l : List Object) (b : Object) :
    Object.matchesAny l b = l.any (fun o => o.matches b) := by
  induction l with
  | nil => simp [Object.matchesAny]
  | cons o rest ih => simp [Object.matchesAny, ih]

theorem matches_and_right (a : Object) (ps : List Object) :
    a.matches (Object.And ps) = Object.matchesAll a ps := by
  cases a <;> simp [Object.matches]

theorem matches_and_left (ss : List Object) (p : Object) (h : p.isAnd = false) :
    (Object.And ss).matches p = Object.matchesAny ss p := by
  cases p <;> simp [Object.isAnd] at h ⊢ <;> simp [Object.matches]

/-- `Object::push` from `src/lib.rs` lines 187-197: on a conjunction,
append `obj` unless some element already matches it; on an atom, keep
`self` when it matches `obj`, else form the two-element conjunction. -/
def Object.push : Object → Object → Object
  | Object.And list, obj =>
      if list.any (fun o => o.matches obj) then Object.And list
      else Object.And (list ++ [obj])
  | self, obj => if self.matches obj then self else Object.And [self, obj]

/-- `Object::remove_placement` from `src/lib.rs` lines 200-209: drop every
`Placement` element of a conjunction; atoms are unchanged. -/
def Object.remove_placement : Object → Object
  | Object.And list =>
      Object.And (list.filter (fun o =>
        match o with
        | Object.Placement _ => false
        | _ => true))
  | self => self

/-- `Object::remove` from `src/lib.rs` lines 212-222: drop every
conjunction element `e` with `obj.matches e`; atoms are unchanged. -/
def Object.remove : Object → Object → Object
  | Object.And list, obj => Object.And (list.filter (fun e => !obj.matches e))
  | self, _ => self

/-- `Object::is_on` from `src/lib.rs` lines 229-231. -/
def Object.is_on (self obj : Object) : Bool :=
  self.matches (Object.Placement (Placement.On obj))

/-- `Object::has` from `src/lib.rs` line 225. -/
def Object.has (self obj : Object) : Bool :=
  self.matches (Object.Has obj)

/-- `Placement::obj_ref` from `src/lib.rs` lines 64-73. -/
def Placement.obj_ref : Placement → Object
  | Placement.On obj => obj
  | Placement.LeanToward obj => obj
  | Placement.In obj => obj
  | Placement.OutOf obj => obj

/-- The `Action::Do` record from `src/lib.rs` lines 271-293. -/
structure Action where
  subject : Object
  verb : Verb
  object : Object
  decorate : List (Object × Object)
  remove : List (Object × Object)
  remove_placement : List Object
  prevent : List (Object × Object)
  require : List (Object × Object)
  distinct : List Object

/-- The room, from `struct Room` in `src/lib.rs`. -/
structure Room where
  objects : List Object

/-- The index-collecting loop of `Room::find` (`src/lib.rs` lines 308-313),
started at index `i`. -/
def findLoop (objs : List Object) (obj : Object) (i : Nat) : List Nat :=
  match objs with
  | [] => []
  | o :: rest =>
      if o.matches obj then i :: findLoop rest obj (i + 1)
      else findLoop rest obj (i + 1)

/-- All indices of entities matching `obj`, in scan order. -/
def Room.matchIndices (r : Room) (obj : Object) : List Nat :=
  findLoop r.objects obj 0

/-- `Room::find` from `src/lib.rs` lines 307-316. -/
def Room.find (r : Room) (obj : Object) : Except (List Nat) Nat :=
  let res := r.matchIndices obj
  if res.length = 1 then Except.ok (res.getD 0 0) else Except.error res

/-- Replace the entity at index `i`. -/
def Room.setObj (r : Room) (i : Nat) (o : Object) : Room :=
  Room.mk (r.objects.set i o)

/-- The per-pair gate test shared by the `require` and `prevent` closures of
`Room::action` (`src/lib.rs` lines 345-358): the entity pattern must
resolve and the resolved entity must match the property. -/
def gateMatches (r : Room) (pr : Object × Object) : Bool :=
  match r.find pr.1 with
  | Except.ok ind => (r.objects.getD ind Object.I).matches pr.2
  | Except.error _ => false

/-- The distinct-group loop of `Room::action` (`src/lib.rs` lines 334-343):
collect resolved indices, fail (`none`) on a repeat, silently skip
unresolved patterns. -/
def distinctLoop (r : Room) : List Object → List Nat → Option (List Nat)
  | [], ids => some ids
  | obj :: rest, ids =>
      match r.find obj with
      | Except.ok a =>
          if ids.contains a then none else distinctLoop r rest (ids ++ [a])
      | Except.error _ => distinctLoop r rest ids

/-- The `remove` loop of `Room::action` (`src/lib.rs` lines 359-363). -/
def applyRemoves : Room → List (Object × Object) → Room
  | r, [] => r
  | r, (obj, removal) :: rest =>
      match r.find obj with
      | Except.ok ind =>
          applyRemoves (r.setObj ind ((r.objects.getD ind Object.I).remove removal)) rest
      | Except.error _ => applyRemoves r rest

/-- The `remove_placement` loop of `Room::action` (`src/lib.rs` lines 364-368). -/
def applyRemovePlacements : Room → List Object → Room
  | r, [] => r
  | r, obj :: rest =>
      match r.find obj with
      | Except.ok ind =>
          applyRemovePlacements (r.setObj ind (r.objects.getD ind Object.I).remove_placement) rest
      | Except.error _ => applyRemovePlacements r rest

/-- The `decorate` loop of `Room::action` (`src/lib.rs` lines 369-373). -/
def applyDecorates : Room → List (Object × Object) → Room
  | r, [] => r
  | r, (obj, decor) :: rest =>
      match r.find obj with
      | Except.ok ind =>
          applyDecorates (r.setObj ind ((r.objects.getD ind Object.I).push decor)) rest
      | Except.error _ => applyDecorates r rest

/-- `Room::action` from `src/lib.rs` lines 319-382, with `&mut self`
modelled by returning the room at each Rust return point together with
the `Result`: every `Err` return happens before the mutation loops. -/
def Room.action (r : Room) (act : Action) : Room × Except Unit Unit :=
  match r.find act.subject, r.find act.object with
  | Except.ok a, Except.ok b =>
      match distinctLoop r act.distinct [] with
      | none => (r, Except.error ())
      | some _ =>
          if !act.require.all (gateMatches r) then (r, Except.error ())
          else if act.prevent.any (gateMatches r) then (r, Except.error ())
          else
            let r1 := applyRemoves r act.remove
            let r2 := applyRemovePlacements r1 act.remove_placement
            let r3 := applyDecorates r2 act.decorate
            let r4 := r3.setObj a
              ((r3.objects.getD a Object.I).push (Object.DidTo act.verb act.object))
            let r5 := r4.setObj b
              ((r4.objects.getD b Object.I).push (Object.WasBy act.verb act.subject))
            (r5, Except.ok ())
  | _, _ => (r, Except.error ())

/-- `Object::moves` from `src/actions.rs` lines 5-19. -/
def Object.moves (self : Object) (object : Object) (place : room.Placement) : Action :=
  { subject := self
    verb := Verb.Move
    object := object
    decorate := [(object, Object.Placement place)]
    remove :=
      match place with
      | Placement.On _ => [(place.obj_ref, Object.Placement (Placement.On object))]
      | _ => []
    remove_placement := [object]
    require := []
    prevent := []
    distinct := [self, object] }

/-- `Object::gives_item` from `src/actions.rs` lines 25-45. -/
def Object.gives_item (self : Object) (to_ : Object) (item : Object) : Action :=
  { subject := self
    verb := Verb.Give
    object := to_
    decorate := [(self, Object.HasNot item), (to_, Object.Has item)]
    remove := [(self, Object.Has item), (to_, Object.HasNot item)]
    remove_placement := [item]
    require := []
    prevent := [(self, Object.HasNot item)]
    distinct := [self, to_, item] }

/-- C1: `Object::matches` follows the three-rule resolution order exactly:
a conjunction pattern requires every element to be matched (even when the
subject is itself a conjunction), a conjunction subject against a
non-conjunction pattern requires some element to match, and two
non-conjunctions of different variant kinds never match while same kinds
compare recursively (identity tags by kind, strings by value, verb-tagged
facts by exact verb equality plus a recursive match on the nested pattern). -/
theorem C1_matches_resolution_order :
    (∀ (a : Object) (ps : List Object),
        a.matches (Object.And ps) = ps.all (fun p => a.matches p)) ∧
    (∀ (ss : List Object) (p : Object), p.isAnd = false →
        (Object.And ss).matches p = ss.any (fun s => s.matches p)) ∧
    (∀ (a b : Object), a.isAnd = false → b.isAnd = false → a.kind ≠ b.kind →
        a.matches b = false) ∧
    (Object.I.matches Object.I = true ∧ Object.You.matches Object.You = true ∧
     Object.He.matches Object.He = true ∧ Object.She.matches Object.She = true ∧
     Object.It.matches Object.It = true ∧ Object.That.matches Object.That = true) ∧
    (∀ s t : String,
        (Object.Called s).matches (Object.Called t) = (s == t) ∧
        (Object.OfType s).matches (Object.OfType t) = (s == t)) ∧
    (∀ x y : Adjective, (Object.Adj x).matches (Object.Adj y) = (x == y)) ∧
    (∀ (va vb : Verb) (a b : Object),
        (Object.WasBy va a).matches (Object.WasBy vb b) = (va == vb && a.matches b) ∧
        (Object.DidTo va a).matches (Object.DidTo vb b) = (va == vb && a.matches b)) ∧
    (∀ a b : Object,
        (Object.Has a).matches (Object.Has b) = a.matches b ∧
        (Object.HasNot a).matches (Object.HasNot b) = a.matches b ∧
        (Object.KeyTo a).matches (Object.KeyTo b) = a.matches b) ∧
    (∀ pa pb : Placement,
        (Object.Placement pa).matches (Object.Placement pb) = pa.matches pb) ∧
    (∀ ra rb : Role, (Object.Role ra).matches (Object.Role rb) = ra.matches rb) := by
  refine ⟨?_, ?_, ?_, ?_, ?_, ?_, ?_, ?_, ?_, ?_⟩
  · intro a ps
    rw [matches_and_right, matchesAll_eq_all]
  · intro ss p hp
    rw [matches_and_left ss p hp, matchesAny_eq_any]
  · intro a b ha hb hk
    cases a <;> cases b <;> simp_all [Object.matches, Object.isAnd, Object.kind]
  · refine ⟨?_, ?_, ?_, ?_, ?_, ?_⟩ <;> simp [Object.matches]
  · intro s t
    constructor <;> simp [Object.matches]
  · intro x y
    simp [Object.matches]
  · intro va vb a b
    constructor <;> simp [Object.matches]
  · intro a b
    refine ⟨?_, ?_, ?_⟩ <;> simp [Object.matches]
  · intro pa pb
    simp [Object.matches]
  · intro ra rb
    simp [Object.matches]

/-- Witness for C1: two distinct non-conjunction kinds never match. -/
theorem C1_matches_resolution_order_witness : Object.He.matches Object.It = false :=
  C1_matches_resolution_order.2.2.1 Object.He Object.It (by simp [Object.isAnd])
    (by simp [Object.isAnd]) (by simp [Object.kind])

/-- C2: `Room::action` is atomic on failure: whenever it returns an error
(unresolved subject or object, a distinct collision, an unmet require
pair, or a triggered prevent pair), the room it leaves behind is exactly
the input room — no entity has been mutated. -/
theorem C2_action_atomic : ∀ (r : Room) (act : Action),
    (r.action act).2 = Except.error () → (r.action act).1 = r := by
  intro r act h
  unfold Room.action at h ⊢
  cases hs : r.find act.subject <;> cases ho : r.find act.object <;>
    simp only [hs, ho] at h ⊢
  case ok.ok a b =>
    cases hd : distinctLoop r act.distinct [] <;> simp only [hd] at h ⊢
    case some ids =>
      by_cases hr : act.require.all (gateMatches r)
      · by_cases hp : act.prevent.any (gateMatches r)
        · simp [hr, hp]
        · simp only [hr, hp] at h
          simp at h
      · simp [hr]

/-- Witness for C2: a failing move in the two-entity room leaves it unchanged. -/
theorem C2_action_atomic_witness :
    ((Room.mk [Object.He, Object.That]).action
        (Object.He.moves Object.He (Placement.On Object.That))).1 =
      Room.mk [Object.He, Object.That] :=
  C2_action_atomic _ _ (by
    simp [Room.action, Room.find, Room.matchIndices, findLoop, Object.matches,
      Object.matchesAll, Object.matchesAny, Placement.matches, Object.moves,
      distinctLoop, gateMatches, applyRemoves, applyRemovePlacements,
      applyDecorates, Object.push, Object.remove, Object.remove_placement,
      Room.setObj, Placement.obj_ref])

theorem findLoop_mem (objs : List Object) (obj : Object) :
    ∀ (i j : Nat), j ∈ findLoop objs obj i ↔
      ∃ k, k < objs.length ∧ (objs.getD k Object.I).matches obj = true ∧ j = i + k := by
  induction objs with
  | nil => intro i j; simp [findLoop]
  | cons o rest ih =>
    intro i j
    by_cases h : o.matches obj = true
    · simp only [findLoop, h, if_true, List.mem_cons, ih (i + 1) j]
      constructor
      · rintro (rfl | ⟨k, hk, hm, rfl⟩)
        · exact ⟨0, by simp, by simpa using h, by omega⟩
        · exact ⟨k + 1, by simp; omega, by simpa using hm, by omega⟩
      · rintro ⟨k, hk, hm, rfl⟩
        cases k with
        | zero =>
          left
          omega
        | succ m =>
          right
          exact ⟨m, by simp at hk; omega, by simpa using hm, by omega⟩
    · simp only [Bool.not_eq_true] at h
      simp only [findLoop, h, Bool.false_eq_true, if_false, ih (i + 1) j]
      constructor
      · rintro ⟨k, hk, hm, rfl⟩
        exact ⟨k + 1, by simp; omega, by simpa using hm, by omega⟩
      · rintro ⟨k, hk, hm, rfl⟩
        cases k with
        | zero => simp at hm; simp [h] at hm
        | succ m => exact ⟨m, by simp at hk; omega, by simpa using hm, by omega⟩

theorem findLoop_pairwise (objs : List Object) (obj : Object) :
    ∀ i, (findLoop objs obj i).Pairwise (· < ·) := by
  induction objs with
  | nil => intro i; simp [findLoop]
  | cons o rest ih =>
    intro i
    by_cases h : o.matches obj = true
    · simp only [findLoop, h, if_true]
      refine List.Pairwise.cons ?_ (ih (i + 1))
      intro j hj
      obtain ⟨k, -, -, rfl⟩ := (findLoop_mem rest obj (i + 1) j).mp hj
      omega
    · simp only [Bool.not_eq_true] at h
      simpa only [findLoop, h, Bool.false_eq_true, if_false] using ih (i + 1)

theorem matchIndices_mem (r : Room) (p : Object) (j : Nat) :
    j ∈ r.matchIndices p ↔
      (j < r.objects.length ∧ (r.objects.getD j Object.I).matches p = true) := by
  unfold Room.matchIndices
  rw [findLoop_mem]
  constructor
  · rintro ⟨k, hk, hm, rfl⟩
    rw [Nat.zero_add]
    exact ⟨hk, hm⟩
  · rintro ⟨hj, hm⟩
    exact ⟨j, hj, hm, by omega⟩

theorem sorted_eq_singleton (l : List Nat) (i : Nat) (hp : l.Pairwise (· < ·))
    (hm : i ∈ l) (hall : ∀ j ∈ l, j = i) : l = [i] := by
  cases l with
  | nil => simp at hm
  | cons x t =>
    have hx : x = i := hall x (by simp)
    cases t with
    | nil => simp [hx]
    | cons y t' =>
      have hy : y = i := hall y (by simp)
      rcases List.pairwise_cons.mp hp with ⟨hlt, -⟩
      have := hlt y (by simp)
      omega

theorem find_ok_iff_singleton (r : Room) (p : Object) (i : Nat) :
    r.find p = Except.ok i ↔ r.matchIndices p = [i] := by
  unfold Room.find
  by_cases h : (r.matchIndices p).length = 1
  · simp only [h, if_true]
    cases hl : r.matchIndices p with
    | nil => rw [hl] at h; simp at h
    | cons x t =>
      rw [hl] at h
      cases t with
      | nil => simp
      | cons y t' => simp at h
  · simp only [h, if_false]
    constructor
    · intro he; exact absurd he (by simp)
    · intro he; rw [he] at h; simp at h

/-- C4: `Room::find` returns `ok i` iff exactly one entity matches the
pattern and `i` is its index; otherwise it returns an error carrying
exactly the list of all matching indices (possibly empty), in increasing
index order. -/
theorem C4_find_characterization : ∀ (r : Room) (p : Object),
    (∀ i : Nat, r.find p = Except.ok i ↔
        (i < r.objects.length ∧ (r.objects.getD i Object.I).matches p = true ∧
         ∀ j : Nat, j < r.objects.length →
           (r.objects.getD j Object.I).matches p = true → j = i)) ∧
    (∀ l : List Nat, r.find p = Except.error l ↔
        (l = r.matchIndices p ∧ l.length ≠ 1)) ∧
    (∀ j : Nat, j ∈ r.matchIndices p ↔
        (j < r.objects.length ∧ (r.objects.getD j Object.I).matches p = true)) ∧
    (r.matchIndices p).Pairwise (· < ·) := by
  intro r p
  refine ⟨?_, ?_, matchIndices_mem r p, findLoop_pairwise r.objects p 0⟩
  · intro i
    rw [find_ok_iff_singleton]
    constructor
    · intro hl
      have hi : i ∈ r.matchIndices p := by rw [hl]; simp
      obtain ⟨hlen, hm⟩ := (matchIndices_mem r p i).mp hi
      refine ⟨hlen, hm, ?_⟩
      intro j hj hjm
      have : j ∈ r.matchIndices p := (matchIndices_mem r p j).mpr ⟨hj, hjm⟩
      rw [hl] at this
      simpa using this
    · rintro ⟨hlen, hm, huniq⟩
      refine sorted_eq_singleton _ i (findLoop_pairwise r.objects p 0) ?_ ?_
      · exact (matchIndices_mem r p i).mpr ⟨hlen, hm⟩
      · intro j hj
        obtain ⟨h1, h2⟩ := (matchIndices_mem r p j).mp hj
        exact huniq j h1 h2
  · intro l
    unfold Room.find
    by_cases h : (r.matchIndices p).length = 1
    · simp only [h, if_true]
      constructor
      · intro he; exact absurd he (by simp)
      · rintro ⟨rfl, hne⟩; exact absurd h hne
    · simp only [h, if_false]
      constructor
      · intro he
        have : r.matchIndices p = l := by
          have := he
          simp at this
          exact this
        exact ⟨this.symm, by rw [this] at h; exact h⟩
      · rintro ⟨rfl, -⟩; rfl

/-- Witness for C4: in the room `[He, That]` the pattern `It` matches no
entity, so `find` fails with the empty index list. -/
theorem C4_find_characterization_witness :
    (Room.mk [Object.He, Object.That]).find Object.It = Except.error [] :=
  ((C4_find_characterization (Room.mk [Object.He, Object.That]) Object.It).2.1 []).mpr
    ⟨by simp [Room.matchIndices, findLoop, Object.matches], by simp⟩

theorem gateMatches_iff (r : Room) (pr : Object × Object) :
    gateMatches r pr = true ↔
      ∃ ind : Nat, r.find pr.1 = Except.ok ind ∧
        (r.objects.getD ind Object.I).matches pr.2 = true := by
  unfold gateMatches
  cases hf : r.find pr.1 with
  | ok ind => simp [hf]
  | error e => simp [hf]

/-- C5: gate asymmetry between `require` and `prevent` in `Room::action`:
once subject, object and the distinct group pass, the action fails iff
some require pair has an unresolved entity-pattern or a resolved entity
that does not match the property, or some prevent pair has an entity
pattern that resolves and matches the property; an unresolved prevent
entity-pattern never causes failure. -/
theorem C5_gate_asymmetry : ∀ (r : Room) (act : Action) (a b : Nat) (ids : List Nat),
    r.find act.subject = Except.ok a → r.find act.object = Except.ok b →
    distinctLoop r act.distinct [] = some ids →
    ((r.action act).2 = Except.error () ↔
      ((∃ pr ∈ act.require, ¬ ∃ ind : Nat, r.find pr.1 = Except.ok ind ∧
            (r.objects.getD ind Object.I).matches pr.2 = true) ∨
       (∃ pr ∈ act.prevent, ∃ ind : Nat, r.find pr.1 = Except.ok ind ∧
            (r.objects.getD ind Object.I).matches pr.2 = true))) := by
  intro r act a b ids hs ho hd
  unfold Room.action
  simp only [hs, ho, hd]
  by_cases hr : act.require.all (gateMatches r) = true
  · by_cases hp : act.prevent.any (gateMatches r) = true
    · simp only [hr, hp]
      refine iff_of_true (by simp) (Or.inr ?_)
      obtain ⟨pr, hmem, hg⟩ := List.any_eq_true.mp hp
      exact ⟨pr, hmem, (gateMatches_iff r pr).mp hg⟩
    · simp only [hr, hp]
      refine iff_of_false (by simp) ?_
      rintro (⟨pr, hmem, hne⟩ | ⟨pr, hmem, hex⟩)
      · exact hne ((gateMatches_iff r pr).mp (List.all_eq_true.mp hr pr hmem))
      · exact hp (List.any_eq_true.mpr ⟨pr, hmem, (gateMatches_iff r pr).mpr hex⟩)
  · simp only [hr]
    refine iff_of_true (by simp) (Or.inl ?_)
    rw [List.all_eq_true] at hr
    push_neg at hr
    obtain ⟨pr, hmem, hg⟩ := hr
    refine ⟨pr, hmem, ?_⟩
    intro hex
    exact hg ((gateMatches_iff r pr).mpr hex)

/-- Witness for C5: an unmet require pair (She is not Dead) makes a
fully-resolved action fail. -/
theorem C5_gate_asymmetry_witness :
    ((Room.mk [Object.He, Object.She]).action
      { subject := Object.He, verb := Verb.Talk, object := Object.She,
        decorate := [], remove := [], remove_placement := [], prevent := [],
        require := [(Object.She, Object.Adj Adjective.Dead)],
        distinct := [] }).2 = Except.error () := by
  refine (C5_gate_asymmetry (Room.mk [Object.He, Object.She]) _ 0 1 [] ?_ ?_ ?_).mpr
    (Or.inl ⟨(Object.She, Object.Adj Adjective.Dead), by simp, ?_⟩)
  · simp [Room.find, Room.matchIndices, findLoop, Object.matches]
  · simp [Room.find, Room.matchIndices, findLoop, Object.matches]
  · simp [distinctLoop]
  · rintro ⟨ind, hind, hm⟩
    simp [Room.find, Room.matchIndices, findLoop, Object.matches] at hind
    subst hind
    simp [Object.matches] at hm

theorem distinctLoop_none_iff (r : Room) : ∀ (ds : List Object) (ids : List Nat),
    ids.Nodup →
    (distinctLoop r ds ids = none ↔
      ¬ (ids ++ ds.filterMap (fun o => (r.find o).toOption)).Nodup) := by
  intro ds
  induction ds with
  | nil =>
    intro ids h
    simp [distinctLoop, h]
  | cons obj rest ih =>
    intro ids h
    cases hf : r.find obj with
    | error e =>
      simp only [distinctLoop, hf]
      rw [ih ids h]
      simp [hf, Except.toOption]
    | ok a =>
      simp only [distinctLoop, hf]
      by_cases hc : a ∈ ids
      · have hcb : ids.contains a = true := by simpa using hc
        simp only [hcb, if_true]
        refine iff_of_true (by trivial) ?_
        intro hnd
        rcases List.nodup_append.mp hnd with ⟨-, -, hdisj⟩
        exact hdisj hc (by simp [hf, Except.toOption])
      · have hcb : ids.contains a = false := by simpa using hc
        simp only [hcb, Bool.false_eq_true, if_false]
        rw [ih (ids ++ [a]) (by simp [List.nodup_append, h, hc])]
        simp [hf, Except.toOption, List.append_assoc]

/-- C6: distinct-group gating: patterns in `distinct` that fail to resolve
are silently skipped, and the distinct gate rejects iff the indices that
did resolve contain a repeat; when it rejects, the action fails with the
room unchanged; in the room `[He, That]`, `He.moves(He, on(That))` fails
while `He.moves(That, on(He))` succeeds. -/
theorem C6_distinct_gating :
    (∀ (r : Room) (ds : List Object),
        distinctLoop r ds [] = none ↔
          ¬ (ds.filterMap (fun o => (r.find o).toOption)).Nodup) ∧
    (∀ (r : Room) (act : Action) (a b : Nat),
        r.find act.subject = Except.ok a → r.find act.object = Except.ok b →
        distinctLoop r act.distinct [] = none →
        r.action act = (r, Except.error ())) ∧
    (((Room.mk [Object.He, Object.That]).action
        (Object.He.moves Object.He (Placement.On Object.That))).2 = Except.error () ∧
     ((Room.mk [Object.He, Object.That]).action
        (Object.He.moves Object.That (Placement.On Object.He))).2 = Except.ok ()) := by
  refine ⟨?_, ?_, ?_, ?_⟩
  · intro r ds
    simpa using distinctLoop_none_iff r ds [] (by simp)
  · intro r act a b hs ho hd
    unfold Room.action
    simp only [hs, ho, hd]
  · simp [Room.action, Room.find, Room.matchIndices, findLoop, Object.matches,
      Object.matchesAll, Object.matchesAny, Placement.matches, Object.moves,
      distinctLoop, gateMatches, applyRemoves, applyRemovePlacements,
      applyDecorates, Object.push, Object.remove, Object.remove_placement,
      Room.setObj, Placement.obj_ref]
  · simp [Room.action, Room.find, Room.matchIndices, findLoop, Object.matches,
      Object.matchesAll, Object.matchesAny, Placement.matches, Object.moves,
      distinctLoop, gateMatches, applyRemoves, applyRemovePlacements,
      applyDecorates, Object.push, Object.remove, Object.remove_placement,
      Room.setObj, Placement.obj_ref]

/-- Witness for C6: the distinct gate rejects the duplicated pattern `He`. -/
theorem C6_distinct_gating_witness :
    distinctLoop (Room.mk [Object.He, Object.That]) [Object.He, Object.He] [] = none :=
  (C6_distinct_gating.1 (Room.mk [Object.He, Object.That]) [Object.He, Object.He]).mpr
    (by simp [Room.find, Room.matchIndices, findLoop, Object.matches, Except.toOption])

theorem matches_trans_aux : ∀ (n : Nat) (x y z : Object),
    sizeOf x + sizeOf y + sizeOf z ≤ n →
    x.matches y = true → y.matches z = true → x.matches z = true := by
  intro n
  induction n using Nat.strong_induction_on with
  | _ n IH =>
  intro x y z hn hxy hyz
  have step : ∀ x' y' z' : Object, sizeOf x' + sizeOf y' + sizeOf z' < n →
      x'.matches y' = true → y'.matches z' = true → x'.matches z' = true :=
    fun x' y' z' h1 h2 h3 =>
      IH (sizeOf x' + sizeOf y' + sizeOf z') h1 x' y' z' (le_refl _) h2 h3
  by_cases hzA : z.isAnd = true
  · obtain ⟨zs, rfl⟩ : ∃ zs, z = Object.And zs := by
      cases z <;> simp [Object.isAnd] at hzA ⊢
    rw [matches_and_right, matchesAll_eq_all, List.all_eq_true] at hyz ⊢
    intro zj hzj
    have hlt := List.sizeOf_lt_of_mem hzj
    have hsz : sizeOf (Object.And zs) = 1 + sizeOf zs := by simp
    exact step x y zj (by omega) hxy (hyz zj hzj)
  · have hz : z.isAnd = false := by simpa using hzA
    by_cases hyA : y.isAnd = true
    · obtain ⟨ys, rfl⟩ : ∃ ys, y = Object.And ys := by
        cases y <;> simp [Object.isAnd] at hyA ⊢
      rw [matches_and_left ys z hz, matchesAny_eq_any, List.any_eq_true] at hyz
      obtain ⟨E, hE, hEz⟩ := hyz
      rw [matches_and_right, matchesAll_eq_all, List.all_eq_true] at hxy
      have hlt := List.sizeOf_lt_of_mem hE
      have hsz : sizeOf (Object.And ys) = 1 + sizeOf ys := by simp
      exact step x E z (by omega) (hxy E hE) hEz
    · have hy : y.isAnd = false := by simpa using hyA
      by_cases hxA : x.isAnd = true
      · obtain ⟨xs, rfl⟩ : ∃ xs, x = Object.And xs := by
          cases x <;> simp [Object.isAnd] at hxA ⊢
        rw [matches_and_left xs y hy, matchesAny_eq_any, List.any_eq_true] at hxy
        obtain ⟨e, he, hey⟩ := hxy
        rw [matches_and_left xs z hz, matchesAny_eq_any, List.any_eq_true]
        have hlt := List.sizeOf_lt_of_mem he
        have hsz : sizeOf (Object.And xs) = 1 + sizeOf xs := by simp
        exact ⟨e, he, step e y z (by omega) hey hyz⟩
      · have hx : x.isAnd = false := by simpa using hxA
        cases y with
        | And ys => simp [Object.isAnd] at hy
        | I =>
          obtain rfl : z = Object.I := by
            cases z <;> simp [Object.matches, Object.isAnd] at hyz hz ⊢
          exact hxy
        | You =>
          obtain rfl : z = Object.You := by
            cases z <;> simp [Object.matches, Object.isAnd] at hyz hz ⊢
          exact hxy
        | He =>
          obtain rfl : z = Object.He := by
            cases z <;> simp [Object.matches, Object.isAnd] at hyz hz ⊢
          exact hxy
        | She =>
          obtain rfl : z = Object.She := by
            cases z <;> simp [Object.matches, Object.isAnd] at hyz hz ⊢
          exact hxy
        | It =>
          obtain rfl : z = Object.It := by
            cases z <;> simp [Object.matches, Object.isAnd] at hyz hz ⊢
          exact hxy
        | That =>
          obtain rfl : z = Object.That := by
            cases z <;> simp [Object.matches, Object.isAnd] at hyz hz ⊢
          exact hxy
        | Called s =>
          obtain ⟨t, rfl⟩ : ∃ t, x = Object.Called t := by
            cases x <;> simp [Object.matches, Object.isAnd] at hxy hx ⊢
          obtain ⟨u, rfl⟩ : ∃ u, z = Object.Called u := by
            cases z <;> simp [Object.matches, Object.isAnd] at hyz hz ⊢
          simp [Object.matches, beq_iff_eq] at hxy hyz ⊢
          exact hxy.trans hyz
        | OfType s =>
          obtain ⟨t, rfl⟩ : ∃ t, x = Object.OfType t := by
            cases x <;> simp [Object.matches, Object.isAnd] at hxy hx ⊢
          obtain ⟨u, rfl⟩ : ∃ u, z = Object.OfType u := by
            cases z <;> simp [Object.matches, Object.isAnd] at hyz hz ⊢
          simp [Object.matches, beq_iff_eq] at hxy hyz ⊢
          exact hxy.trans hyz
        | Adj s =>
          obtain ⟨t, rfl⟩ : ∃ t, x = Object.Adj t := by
            cases x <;> simp [Object.matches, Object.isAnd] at hxy hx ⊢
          obtain ⟨u, rfl⟩ : ∃ u, z = Object.Adj u := by
            cases z <;> simp [Object.matches, Object.isAnd] at hyz hz ⊢
          simp [Object.matches, beq_iff_eq] at hxy hyz ⊢
          exact hxy.trans hyz
        | Has b =>
          obtain ⟨a, rfl⟩ : ∃ a, x = Object.Has a := by
            cases x <;> simp [Object.matches, Object.isAnd] at hxy hx ⊢
          obtain ⟨c, rfl⟩ : ∃ c, z = Object.Has c := by
            cases z <;> simp [Object.matches, Object.isAnd] at hyz hz ⊢
          simp only [Object.matches] at hxy hyz ⊢
          simp at hn
          exact step a b c (by omega) hxy hyz
        | HasNot b =>
          obtain ⟨a, rfl⟩ : ∃ a, x = Object.HasNot a := by
            cases x <;> simp [Object.matches, Object.isAnd] at hxy hx ⊢
          obtain ⟨c, rfl⟩ : ∃ c, z = Object.HasNot c := by
            cases z <;> simp [Object.matches, Object.isAnd] at hyz hz ⊢
          simp only [Object.matches] at hxy hyz ⊢
          simp at hn
          exact step a b c (by omega) hxy hyz
        | KeyTo b =>
          obtain ⟨a, rfl⟩ : ∃ a, x = Object.KeyTo a := by
            cases x <;> simp [Object.matches, Object.isAnd] at hxy hx ⊢
          obtain ⟨c, rfl⟩ : ∃ c, z = Object.KeyTo c := by
            cases z <;> simp [Object.matches, Object.isAnd] at hyz hz ⊢
          simp only [Object.matches] at hxy hyz ⊢
          simp at hn
          exact step a b c (by omega) hxy hyz
        | WasBy vb b =>
          obtain ⟨va, a, rfl⟩ : ∃ va a, x = Object.WasBy va a := by
            cases x <;> simp [Object.matches, Object.isAnd] at hxy hx ⊢
          obtain ⟨vc, c, rfl⟩ : ∃ vc c, z = Object.WasBy vc c := by
            cases z <;> simp [Object.matches, Object.isAnd] at hyz hz ⊢
          simp [Object.matches, beq_iff_eq] at hxy hyz ⊢
          obtain ⟨hv1, h1⟩ := hxy
          obtain ⟨hv2, h2⟩ := hyz
          simp at hn
          exact ⟨hv1.trans hv2, step a b c (by omega) h1 h2⟩
        | DidTo vb b =>
          obtain ⟨va, a, rfl⟩ : ∃ va a, x = Object.DidTo va a := by
            cases x <;> simp [Object.matches, Object.isAnd] at hxy hx ⊢
          obtain ⟨vc, c, rfl⟩ : ∃ vc c, z = Object.DidTo vc c := by
            cases z <;> simp [Object.matches, Object.isAnd] at hyz hz ⊢
          simp [Object.matches, beq_iff_eq] at hxy hyz ⊢
          obtain ⟨hv1, h1⟩ := hxy
          obtain ⟨hv2, h2⟩ := hyz
          simp at hn
          exact ⟨hv1.trans hv2, step a b c (by omega) h1 h2⟩
        | Placement pb =>
          obtain ⟨pa, rfl⟩ : ∃ pa, x = Object.Placement pa := by
            cases x <;> simp [Object.matches, Object.isAnd] at hxy hx ⊢
          obtain ⟨pc, rfl⟩ : ∃ pc, z = Object.Placement pc := by
            cases z <;> simp [Object.matches, Object.isAnd] at hyz hz ⊢
          simp only [Object.matches] at hxy hyz ⊢
          simp at hn
          cases pa <;> cases pb <;> cases pc <;>
            simp [Placement.matches] at hxy hyz ⊢ <;>
            (simp at hn; exact step _ _ _ (by omega) hxy hyz)
        | Role rb =>
          obtain ⟨ra, rfl⟩ : ∃ ra, x = Object.Role ra := by
            cases x <;> simp [Object.matches, Object.isAnd] at hxy hx ⊢
          obtain ⟨rc, rfl⟩ : ∃ rc, z = Object.Role rc := by
            cases z <;> simp [Object.matches, Object.isAnd] at hyz hz ⊢
          simp only [Object.matches] at hxy hyz ⊢
          simp at hn
          cases ra with
          | OpponentOf a =>
          cases rb with
          | OpponentOf b =>
          cases rc with
          | OpponentOf c =>
          simp [Role.matches] at hxy hyz ⊢
          simp at hn
          exact step a b c (by omega) hxy hyz

theorem matches_trans (x y z : Object) (hxy : x.matches y = true)
    (hyz : y.matches z = true) : x.matches z = true :=
  matches_trans_aux (sizeOf x + sizeOf y + sizeOf z) x y z (le_refl _) hxy hyz

theorem and_append_matches_aux : ∀ (n : Nat) (p : Object) (l : List Object) (q : Object),
    sizeOf p ≤ n → (Object.And l).matches p = true →
    (Object.And (l ++ [q])).matches p = true := by
  intro n
  induction n using Nat.strong_induction_on with
  | _ n IH =>
  intro p l q hn h
  by_cases hp : p.isAnd = true
  · obtain ⟨ps, rfl⟩ : ∃ ps, p = Object.And ps := by
      cases p <;> simp [Object.isAnd] at hp ⊢
    rw [matches_and_right, matchesAll_eq_all, List.all_eq_true] at h ⊢
    intro pj hpj
    have hlt := List.sizeOf_lt_of_mem hpj
    have hsz : sizeOf (Object.And ps) = 1 + sizeOf ps := by simp
    exact IH (sizeOf pj) (by omega) pj l q (le_refl _) (h pj hpj)
  · have hp' : p.isAnd = false := by simpa using hp
    rw [matches_and_left _ _ hp', matchesAny_eq_any, List.any_eq_true] at h ⊢
    obtain ⟨e, he, hey⟩ := h
    exact ⟨e, List.mem_append_left _ he, hey⟩

theorem pair_matches_aux : ∀ (n : Nat) (p s q : Object),
    sizeOf p ≤ n → s.matches p = true →
    (Object.And [s, q]).matches p = true := by
  intro n
  induction n using Nat.strong_induction_on with
  | _ n IH =>
  intro p s q hn h
  by_cases hp : p.isAnd = true
  · obtain ⟨ps, rfl⟩ : ∃ ps, p = Object.And ps := by
      cases p <;> simp [Object.isAnd] at hp ⊢
    rw [matches_and_right, matchesAll_eq_all, List.all_eq_true] at h ⊢
    intro pj hpj
    have hlt := List.sizeOf_lt_of_mem hpj
    have hsz : sizeOf (Object.And ps) = 1 + sizeOf ps := by simp
    exact IH (sizeOf pj) (by omega) pj s q (le_refl _) (h pj hpj)
  · have hp' : p.isAnd = false := by simpa using hp
    rw [matches_and_left _ _ hp', matchesAny_eq_any, List.any_eq_true]
    exact ⟨s, by simp, h⟩

theorem push_preserves_matches_aux : ∀ (n : Nat) (l : List Object) (p q : Object),
    sizeOf q ≤ n → (Object.And l).matches p = true →
    (Object.And (l ++ [p])).matches q = (Object.And l).matches q := by
  intro n
  induction n using Nat.strong_induction_on with
  | _ n IH =>
  intro l p q hn h
  by_cases hq : q.isAnd = true
  · obtain ⟨qs, rfl⟩ : ∃ qs, q = Object.And qs := by
      cases q <;> simp [Object.isAnd] at hq ⊢
    rw [matches_and_right, matches_and_right, matchesAll_eq_all, matchesAll_eq_all]
    rw [Bool.eq_iff_iff]
    simp only [List.all_eq_true]
    have hsz : sizeOf (Object.And qs) = 1 + sizeOf qs := by simp
    constructor
    · intro hall qj hqj
      have hlt := List.sizeOf_lt_of_mem hqj
      rw [← IH (sizeOf qj) (by omega) l p qj (le_refl _) h]
      exact hall qj hqj
    · intro hall qj hqj
      have hlt := List.sizeOf_lt_of_mem hqj
      rw [IH (sizeOf qj) (by omega) l p qj (le_refl _) h]
      exact hall qj hqj
  · have hq' : q.isAnd = false := by simpa using hq
    rw [matches_and_left _ _ hq', matches_and_left _ _ hq', matchesAny_eq_any,
      matchesAny_eq_any, Bool.eq_iff_iff]
    simp only [List.any_eq_true]
    constructor
    · rintro ⟨e, he, hey⟩
      rcases List.mem_append.mp he with he' | he'
      · exact ⟨e, he', hey⟩
      · have hep : e = p := by simpa using he'
        subst hep
        have := matches_trans (Object.And l) e q h hey
        rw [matches_and_left _ _ hq', matchesAny_eq_any, List.any_eq_true] at this
        exact this
    · rintro ⟨e, he, hey⟩
      exact ⟨e, List.mem_append_left _ he, hey⟩

theorem push_atom_eq (s q : Object) (hs : s.isAnd = false) :
    s.push q = if s.matches q then s else Object.And [s, q] := by
  cases s <;> simp [Object.push, Object.isAnd] at hs ⊢

/-- Counterexample to C3: the conjunction `And [I, You]` matches the
pattern `And [I, You]`, yet pushing that pattern is not a no-op — the
code's conjunction branch tests whether some element matches the new
property, not whether the whole object does, so the implied conjunction
is appended anyway. -/
theorem C3_push_not_noop_counterexample :
    (Object.And [Object.I, Object.You]).matches (Object.And [Object.I, Object.You]) = true ∧
    (Object.And [Object.I, Object.You]).push (Object.And [Object.I, Object.You]) ≠
      Object.And [Object.I, Object.You] := by
  constructor
  · simp [Object.matches, Object.matchesAll, Object.matchesAny]
  · simp [Object.push, Object.matches, Object.matchesAll, Object.matchesAny]

/-- C3 (amended): the no-op condition of `Object::push` is the element
test, not whole-object matching: on a conjunction, `push p` is a no-op
iff some element of its list already matches `p`; on a non-conjunction,
iff the object itself matches `p`; hence for every non-conjunction
property `p`, `self.matches(p)` does imply that the push is a no-op.
In every case, pushing a property already matched by `self` never
changes matchable behavior. -/
theorem C3_push_amended :
    (∀ (l : List Object) (p : Object),
        ((Object.And l).push p = Object.And l) ↔ l.any (fun o => o.matches p) = true) ∧
    (∀ (s p : Object), s.isAnd = false → ((s.push p = s) ↔ s.matches p = true)) ∧
    (∀ (s p : Object), p.isAnd = false → s.matches p = true → s.push p = s) ∧
    (∀ (s p q : Object), s.matches p = true → (s.push p).matches q = s.matches q) := by
  refine ⟨?_, ?_, ?_, ?_⟩
  · intro l p
    by_cases hc : l.any (fun o => o.matches p) = true
    · simp [Object.push, hc]
    · simp only [Object.push, hc, Bool.false_eq_true, if_false]
      constructor
      · intro h
        have := congrArg (fun o => match o with
          | Object.And li => li.length
          | _ => 0) h
        simp at this
      · intro h
        exact h.elim
  · intro s p hs
    rw [push_atom_eq s p hs]
    by_cases m : s.matches p = true
    · simp [m]
    · have m' : s.matches p = false := by simpa using m
      simp only [m', Bool.false_eq_true, if_false]
      constructor
      · intro h
        have := congrArg Object.isAnd h
        rw [hs] at this
        simp [Object.isAnd] at this
      · intro h
        exact h.elim
  · intro s p hp hm
    cases s
    case And l =>
      rw [matches_and_left _ _ hp, matchesAny_eq_any] at hm
      simp [Object.push, hm]
    all_goals simp [Object.push, hm]
  · intro s p q hm
    cases s
    case And l =>
      by_cases hc : l.any (fun o => o.matches p) = true
      · simp [Object.push, hc]
      · simp only [Object.push, hc, Bool.false_eq_true, if_false]
        exact push_preserves_matches_aux (sizeOf q) l p q (le_refl _) hm
    all_goals simp [Object.push, hm]

/-- Witness for C3 (amended): pushing a matched non-conjunction property
onto a matching object is a no-op. -/
theorem C3_push_amended_witness : Object.He.push Object.He = Object.He :=
  C3_push_amended.2.2.1 Object.He Object.He (by simp [Object.isAnd])
    (by simp [Object.matches])

/-- C10: `Object::push` is monotone on the match set: adding a fact never
makes an entity stop matching a pattern it matched before. -/
theorem C10_push_monotone : ∀ (s q p : Object),
    s.matches p = true → (s.push q).matches p = true := by
  intro s q p hm
  by_cases hs : s.isAnd = true
  · obtain ⟨l, rfl⟩ : ∃ l, s = Object.And l := by
      cases s <;> simp [Object.isAnd] at hs ⊢
    by_cases hc : l.any (fun o => o.matches q) = true
    · simpa [Object.push, hc] using hm
    · simp only [Object.push, hc, Bool.false_eq_true, if_false]
      exact and_append_matches_aux (sizeOf p) p l q (le_refl _) hm
  · have hs' : s.isAnd = false := by simpa using hs
    rw [push_atom_eq s q hs']
    by_cases hq : s.matches q = true
    · simpa [hq] using hm
    · have hq' : s.matches q = false := by simpa using hq
      simp only [hq', Bool.false_eq_true, if_false]
      exact pair_matches_aux (sizeOf p) p s q (le_refl _) hm

/-- Witness for C10: `He` still matches `He` after pushing `It`. -/
theorem C10_push_monotone_witness : (Object.He.push Object.It).matches Object.He = true :=
  C10_push_monotone Object.He Object.It Object.He (by simp [Object.matches])

/-- The forward deduplication invariant on one entity state: if it is a
conjunction, no element matches any later element. -/
def ConjOk : Object → Prop
  | Object.And l => l.Pairwise (fun a b => a.matches b = false)
  | _ => True

/-- Every entity of the room satisfies the deduplication invariant. -/
def RoomOk (r : Room) : Prop := ∀ o ∈ r.objects, ConjOk o

/-- States reachable from a room by any sequence of actions and pushes. -/
inductive Reachable (r : Room) : Room → Prop where
  | refl : Reachable r r
  | push (r' : Room) (i : Nat) (p : Object) : Reachable r r' →
      Reachable r (r'.setObj i ((r'.objects.getD i Object.I).push p))
  | act (r' : Room) (a : Action) : Reachable r r' → Reachable r (r'.action a).1

theorem ConjOk_atom (o : Object) (h : o.isAnd = false) : ConjOk o := by
  cases o <;> simp [ConjOk, Object.isAnd] at h ⊢

theorem ConjOk_push (o p : Object) (h : ConjOk o) : ConjOk (o.push p) := by
  by_cases ho : o.isAnd = true
  · obtain ⟨l, rfl⟩ : ∃ l, o = Object.And l := by
      cases o <;> simp [Object.isAnd] at ho ⊢
    by_cases hc : l.any (fun e => e.matches p) = true
    · simpa [Object.push, hc] using h
    · simp only [Object.push, hc, Bool.false_eq_true, if_false]
      simp only [ConjOk] at h ⊢
      rw [List.pairwise_append]
      refine ⟨h, by simp, ?_⟩
      intro a ha b hb
      have hb' : b = p := by simpa using hb
      subst hb'
      by_contra hne
      exact hc (List.any_eq_true.mpr ⟨a, ha, by simpa using hne⟩)
  · have ho' : o.isAnd = false := by simpa using ho
    rw [push_atom_eq o p ho']
    by_cases m : o.matches p = true
    · simpa [m] using h
    · have m' : o.matches p = false := by simpa using m
      simp only [m', Bool.false_eq_true, if_false]
      simp [ConjOk, List.pairwise_cons, m']

theorem ConjOk_remove (o p : Object) (h : ConjOk o) : ConjOk (o.remove p) := by
  cases o
  case And l =>
    simp only [Object.remove, ConjOk] at h ⊢
    exact List.Pairwise.sublist (List.filter_sublist _) h
  all_goals simpa [Object.remove] using h

theorem ConjOk_remove_placement (o : Object) (h : ConjOk o) :
    ConjOk o.remove_placement := by
  cases o
  case And l =>
    simp only [Object.remove_placement, ConjOk] at h ⊢
    exact List.Pairwise.sublist (List.filter_sublist _) h
  all_goals simpa [Object.remove_placement] using h

theorem RoomOk_setObj (r : Room) (i : Nat) (x : Object) (h : RoomOk r)
    (hx : ConjOk x) : RoomOk (r.setObj i x) := by
  intro o ho
  simp only [Room.setObj] at ho
  rcases List.mem_or_eq_of_mem_set ho with h' | rfl
  · exact h o h'
  · exact hx

theorem ConjOk_getD (r : Room) (h : RoomOk r) (i : Nat) :
    ConjOk (r.objects.getD i Object.I) := by
  by_cases hi : i < r.objects.length
  · rw [List.getD_eq_get r.objects Object.I hi]
    exact h _ (List.get_mem _ _ _)
  · rw [List.getD_eq_default r.objects Object.I (by omega)]
    simp [ConjOk]

theorem RoomOk_applyRemoves : ∀ (ps : List (Object × Object)) (r : Room),
    RoomOk r → RoomOk (applyRemoves r ps) := by
  intro ps
  induction ps with
  | nil => intro r h; simpa [applyRemoves] using h
  | cons pr rest ih =>
    intro r h
    obtain ⟨obj, removal⟩ := pr
    cases hf : r.find obj with
    | ok ind =>
      simp only [applyRemoves, hf]
      exact ih _ (RoomOk_setObj _ _ _ h (ConjOk_remove _ _ (ConjOk_getD r h ind)))
    | error e =>
      simp only [applyRemoves, hf]
      exact ih _ h

theorem RoomOk_applyRemovePlacements : ∀ (ps : List Object) (r : Room),
    RoomOk r → RoomOk (applyRemovePlacements r ps) := by
  intro ps
  induction ps with
  | nil => intro r h; simpa [applyRemovePlacements] using h
  | cons obj rest ih =>
    intro r h
    cases hf : r.find obj with
    | ok ind =>
      simp only [applyRemovePlacements, hf]
      exact ih _ (RoomOk_setObj _ _ _ h (ConjOk_remove_placement _ (ConjOk_getD r h ind)))
    | error e =>
      simp only [applyRemovePlacements, hf]
      exact ih _ h

theorem RoomOk_applyDecorates : ∀ (ps : List (Object × Object)) (r : Room),
    RoomOk r → RoomOk (applyDecorates r ps) := by
  intro ps
  induction ps with
  | nil => intro r h; simpa [applyDecorates] using h
  | cons pr rest ih =>
    intro r h
    obtain ⟨obj, decor⟩ := pr
    cases hf : r.find obj with
    | ok ind =>
      simp only [applyDecorates, hf]
      exact ih _ (RoomOk_setObj _ _ _ h (ConjOk_push _ _ (ConjOk_getD r h ind)))
    | error e =>
      simp only [applyDecorates, hf]
      exact ih _ h

theorem RoomOk_action (r : Room) (act : Action) (h : RoomOk r) :
    RoomOk (r.action act).1 := by
  unfold Room.action
  cases hs : r.find act.subject <;> cases ho : r.find act.object <;>
    simp only [hs, ho]
  case error.error => exact h
  case error.ok => exact h
  case ok.error => exact h
  case ok.ok a b =>
    cases hd : distinctLoop r act.distinct [] <;> simp only [hd]
    case none => exact h
    case some ids =>
      by_cases hr : act.require.all (gateMatches r) = true
      · by_cases hp : act.prevent.any (gateMatches r) = true
        · simp only [hr, hp, Bool.not_true, Bool.false_eq_true, if_false, if_true]
          exact h
        · have hp' : act.prevent.any (gateMatches r) = false := by simpa using hp
          simp only [hr, hp', Bool.not_true, Bool.false_eq_true, if_false]
          have h1 := RoomOk_applyRemoves act.remove r h
          have h2 := RoomOk_applyRemovePlacements act.remove_placement _ h1
          have h3 := RoomOk_applyDecorates act.decorate _ h2
          have h4 : RoomOk ((applyDecorates (applyRemovePlacements
              (applyRemoves r act.remove) act.remove_placement) act.decorate).setObj a
              (((applyDecorates (applyRemovePlacements (applyRemoves r act.remove)
                act.remove_placement) act.decorate).objects.getD a Object.I).push
                (Object.DidTo act.verb act.object))) :=
            RoomOk_setObj _ a _ h3 (ConjOk_push _ _ (ConjOk_getD _ h3 a))
          exact RoomOk_setObj _ b _ h4 (ConjOk_push _ _ (ConjOk_getD _ h4 b))
      · have hr' : act.require.all (gateMatches r) = false := by simpa using hr
        simp only [hr', Bool.not_false, if_true]
        exact h

/-- Counterexample to C7: the claimed invariant fails on reachable states.
`Room::new` performs no deduplication, so a room constructed with
`And [He, He]` is reachable and has an element matching another; and even
from an invariant-respecting start, a push of a conjunction can create a
later element that matches an earlier one (the code only checks the
forward direction). -/
theorem C7_conj_dedup_counterexample :
    (Reachable (Room.mk [Object.And [Object.He, Object.He]])
        (Room.mk [Object.And [Object.He, Object.He]]) ∧
      ([Object.He, Object.He].getD 0 Object.I).matches
        ([Object.He, Object.He].getD 1 Object.I) = true) ∧
    (Reachable (Room.mk [Object.He])
        (Room.mk [Object.And [Object.He, Object.And [Object.He, Object.Called "x"]]]) ∧
      ([Object.He, Object.And [Object.He, Object.Called "x"]].getD 1 Object.I).matches
        ([Object.He, Object.And [Object.He, Object.Called "x"]].getD 0 Object.I) = true) := by
  refine ⟨⟨Reachable.refl, ?_⟩, ⟨?_, ?_⟩⟩
  · simp [Object.matches]
  · have h := Reachable.push (r := Room.mk [Object.He]) (Room.mk [Object.He]) 0
      (Object.And [Object.He, Object.Called "x"]) Reachable.refl
    have he : (Room.mk [Object.He]).setObj 0
        (((Room.mk [Object.He]).objects.getD 0 Object.I).push
          (Object.And [Object.He, Object.Called "x"])) =
        Room.mk [Object.And [Object.He, Object.And [Object.He, Object.Called "x"]]] := by
      simp [Room.setObj, Object.push, Object.matches, Object.matchesAll, Object.matchesAny]
    rw [he] at h
    exact h
  · simp [Object.matches, Object.matchesAll, Object.matchesAny]

/-- C7 (amended): provided every initial entity that is a conjunction has
no element matching a later element, every state reachable by actions and
pushes keeps that forward invariant: in any entity whose expression is
`And list`, for all positions i < j, `list[i].matches(list[j])` is false. -/
theorem C7_conj_dedup_amended : ∀ (r r' : Room),
    RoomOk r → Reachable r r' → RoomOk r' := by
  intro r r' h hre
  induction hre with
  | refl => exact h
  | push r'' i p hre ih =>
    exact RoomOk_setObj _ _ _ ih (ConjOk_push _ _ (ConjOk_getD _ ih i))
  | act r'' a hre ih => exact RoomOk_action _ _ ih

/-- Witness for C7 (amended): the singleton atom room keeps the invariant. -/
theorem C7_conj_dedup_amended_witness : RoomOk (Room.mk [Object.He]) :=
  C7_conj_dedup_amended (Room.mk [Object.He]) (Room.mk [Object.He])
    (by intro o ho; simp at ho; subst ho; simp [ConjOk]) Reachable.refl

/-- C8: Scenario A: in the room `[He, It, That]`, `He.moves(It, on(That))`
succeeds and leaves `It` on `That` (and not conversely); then
`He.moves(That, on(It))` succeeds and leaves `That` on `It` while the
stale `It.is_on(That)` placement has been stripped, because the `remove`
and `remove_placement` steps run before `decorate`. -/
theorem C8_scenario_a :
    (let r0 : Room := Room.mk [Object.He, Object.It, Object.That]
    let s1 := r0.action (Object.He.moves Object.It (Placement.On Object.That))
    let s2 := s1.1.action (Object.He.moves Object.That (Placement.On Object.It))
    s1.2 = Except.ok () ∧
    (s1.1.objects.getD 1 Object.I).is_on Object.That = true ∧
    (s1.1.objects.getD 2 Object.I).is_on Object.It = false ∧
    s2.2 = Except.ok () ∧
    (s2.1.objects.getD 2 Object.I).is_on Object.It = true ∧
    (s2.1.objects.getD 1 Object.I).is_on Object.That = false) := by
  simp [Room.action, Room.find, Room.matchIndices, findLoop, Object.matches,
    Object.matchesAll, Object.matchesAny, Placement.matches, Object.moves,
    distinctLoop, gateMatches, applyRemoves, applyRemovePlacements,
    applyDecorates, Object.push, Object.remove, Object.remove_placement,
    Room.setObj, Placement.obj_ref, Object.is_on]

/-- Counterexample to C9: in the room `[He, She, It]` the giver `He` does
not currently have `It` (no `Has(It)` fact), yet `He.gives_item(She, It)`
succeeds — the prevent pair only blocks a giver that explicitly matches
`has-not(item)`. -/
theorem C9_gives_counterexample :
    (Room.mk [Object.He, Object.She, Object.It]).find Object.He = Except.ok 0 ∧
    ((Room.mk [Object.He, Object.She, Object.It]).objects.getD 0 Object.I).has
      Object.It = false ∧
    ((Room.mk [Object.He, Object.She, Object.It]).action
        (Object.He.gives_item Object.She Object.It)).2 = Except.ok () := by
  refine ⟨?_, ?_, ?_⟩
  · simp [Room.find, Room.matchIndices, findLoop, Object.matches]
  · simp [Object.has, Object.matches]
  · simp [Room.action, Room.find, Room.matchIndices, findLoop, Object.matches,
      Object.matchesAll, Object.matchesAny, Object.gives_item, distinctLoop,
      gateMatches, applyRemoves, applyRemovePlacements, applyDecorates,
      Object.push, Object.remove, Object.remove_placement, Room.setObj]

/-- C9 (amended): if the entity resolved for the subject explicitly
matches `has-not(item)`, then `gives_item` always fails (the prevent pair
on the giver blocks the give) and the room is left unchanged. -/
theorem C9_gives_amended : ∀ (r : Room) (self to_ item : Object) (a : Nat),
    r.find self = Except.ok a →
    (r.objects.getD a Object.I).matches (Object.HasNot item) = true →
    (r.action (self.gives_item to_ item)).2 = Except.error () ∧
    (r.action (self.gives_item to_ item)).1 = r := by
  intro r self to_ item a hf hm
  have hg : gateMatches r (self, Object.HasNot item) = true := by
    unfold gateMatches
    simp only [hf]
    simpa using hm
  unfold Room.action
  simp only [Object.gives_item]
  cases ho : r.find to_ with
  | error e => simp [hf, ho]
  | ok b =>
    cases hd : distinctLoop r [self, to_, item] [] with
    | none => simp [hf, ho, hd]
    | some ids => simp [hf, ho, hd, hg]

/-- Witness for C9 (amended): a giver tagged `has-not(It)` cannot give `It`. -/
theorem C9_gives_amended_witness :
    ((Room.mk [Object.And [Object.He, Object.HasNot Object.It], Object.She, Object.It]).action
        (Object.He.gives_item Object.She Object.It)).2 = Except.error () ∧
    ((Room.mk [Object.And [Object.He, Object.HasNot Object.It], Object.She, Object.It]).action
        (Object.He.gives_item Object.She Object.It)).1 =
      Room.mk [Object.And [Object.He, Object.HasNot Object.It], Object.She, Object.It] :=
  C9_gives_amended _ Object.He Object.She Object.It 0
    (by simp [Room.find, Room.matchIndices, findLoop, Object.matches,
      Object.matchesAll, Object.matchesAny])
    (by simp [Object.matches, Object.matchesAll, Object.matchesAny])

end room
